import Mathlib

/-!
Verification development for the LightSession browser extension.

The definitions below are a shallow embedding of the extension's source
files, in particular:
  * the conversation-tree trimmer of the fetch-proxy page script
    (`trimMapping`, `isVisibleMessage`, the path walk with its visited-set
    cycle guard, the turn-counting cut loop, and the mapping rebuild);
  * the DOM-side helpers (`detectRole`, `isVisible`,
    `shouldIncludeInThread`, `getNodeId`, `buildActiveThread`,
    `buildActiveThreadFast`);
  * the trimmer state machine (`createInitialState`, `boot`, `shutdown`,
    `scheduleTrim`, `evaluateTrim`, `maybeTransitionToSteady`);
  * the fetch interceptor's pure decision logic
    (`isConversationRequest`, `interceptBody`);
  * the cross-context messaging call (`sendMessageWithTimeout`).

DOM reads (candidate collection, streaming detection, root lookup, clock)
are environment inputs to the embedded functions; the functions themselves
are translated from the source.  JavaScript falsiness of strings is
modelled explicitly (`""` counts as falsy) wherever the source tests a
string with `!x` or `x ? _ : _`.
-/

namespace LightSession

/-! ## Conversation-tree trimmer (page script) data model -/

/-- `author` object of a message in the intercepted wire payload. -/
structure ChatAuthor where
  role : Option String
deriving Repr, DecidableEq

/-- `message` object of a node in the intercepted wire payload. -/
structure ChatMessage where
  author : Option ChatAuthor
deriving Repr, DecidableEq

/-- One node of the conversation mapping: `{ parent, children, message }`. -/
structure ChatNode where
  parent : Option String
  children : List String
  message : Option ChatMessage
deriving Repr, DecidableEq

/-- The `mapping` object: node-id keyed association of nodes.  JavaScript
objects have unique keys; lookup returns the first match. -/
abbrev ChatMapping := List (String × ChatNode)

/-- Property access `mapping[id]`. -/
def mpLookup (mp : ChatMapping) (k : String) : Option ChatNode :=
  match mp with
  | [] => none
  | (k0, v) :: rest => if k0 = k then some v else mpLookup rest k

/-- Roles that are NOT visible to users (the page script's `HIDDEN_ROLES`
set: system prompts, tool calls, extended-thinking internal nodes). -/
def HIDDEN_ROLES : List String := ["system", "tool", "thinking"]

/-- `node.message?.author?.role` optional-chain. -/
def nodeRole (n : ChatNode) : Option String :=
  (n.message.bind ChatMessage.author).bind ChatAuthor.role

/-- `isVisibleMessage` from the page script: a node is visible iff it has a
non-empty author role that is not in `HIDDEN_ROLES` (the source tests
`!role`, which is also true for the empty string). -/
def isVisibleMessage (n : ChatNode) : Bool :=
  match nodeRole n with
  | none => false
  | some r => if r = "" then false else ¬ (r ∈ HIDDEN_ROLES)

/-- Whether the id resolves to a visible message in the mapping. -/
def isVisibleId (mp : ChatMapping) (id : String) : Bool :=
  match mpLookup mp id with
  | some n => isVisibleMessage n
  | none => false

/-- The `while (cursor)` walk of `trimMapping` that follows parent links
from `current_node`, with the visited-set cycle guard.  Returns the ids in
push order (newest first) together with a flag that is `true` only if the
fuel ran out before the loop exited on its own; `trimMapping` calls it
with fuel `mp.length + 1`, which is proved sufficient below.  A `none`
cursor models a falsy JavaScript cursor; `some ""` is likewise falsy and
ends the loop. -/
def buildPathAux (mp : ChatMapping) : Nat → Option String → List String → List String → (List String × Bool)
  | 0, _, _, path => (path, true)
  | Nat.succ fuel, cursor, visited, path =>
    match cursor with
    | none => (path, false)
    | some c =>
      if c = "" then (path, false)
      else
        match mpLookup mp c with
        | none => (path, false)
        | some node =>
          if c ∈ visited then (path, false)
          else buildPathAux mp fuel node.parent (c :: visited) (path ++ [c])

/-- The chronological (oldest-first) active path: the walk result reversed,
as in the source's `path.reverse()`. -/
def pathOf (mp : ChatMapping) (current : String) : List String :=
  (buildPathAux mp (mp.length + 1) (some current) [] []).1.reverse

/-- The forward loop of `trimMapping` that computes `visibleTotal`: turns
(role transitions among visible nodes), not raw nodes. -/
def visibleTurnCount (mp : ChatMapping) : List String → Option String → Nat
  | [], _ => 0
  | id :: rest, lastRole =>
    match mpLookup mp id with
    | none => visibleTurnCount mp rest lastRole
    | some node =>
      if isVisibleMessage node then
        let role := (nodeRole node).getD "(no role)"
        if some role = lastRole then visibleTurnCount mp rest lastRole
        else visibleTurnCount mp rest (some role) + 1
      else visibleTurnCount mp rest lastRole

/-- The backwards cut-point loop of `trimMapping`, processing `(index, id)`
pairs from newest to oldest.  An empty id is falsy in the source
(`if (!nodeId) continue`), missing and hidden nodes are skipped, a turn is
counted when the role changes, and the loop answers `i + 1` as soon as the
turn count exceeds the limit (so all nodes of the last counted turn are
kept).  Falling off the end leaves the cut index at `0`. -/
def cutLoop (mp : ChatMapping) (limit : Int) : List (Nat × String) → Int → Option String → Nat
  | [], _, _ => 0
  | (i, id) :: rest, turnCount, lastRole =>
    if id = "" then cutLoop mp limit rest turnCount lastRole
    else
      match mpLookup mp id with
      | none => cutLoop mp limit rest turnCount lastRole
      | some node =>
        if isVisibleMessage node then
          let role := (nodeRole node).getD ""
          let tc := if some role = lastRole then turnCount else turnCount + 1
          let lr := if some role = lastRole then lastRole else some role
          if tc > limit then i + 1 else cutLoop mp limit rest tc lr
        else cutLoop mp limit rest turnCount lastRole

/-- Pair every id with its index, as the source's indexed `for` loop does. -/
def enumIds : Nat → List String → List (Nat × String)
  | _, [] => []
  | i, x :: xs => (i, x) :: enumIds (i + 1) xs

/-- `cutIndex` for a chronological path. -/
def findCutIndex (mp : ChatMapping) (path : List String) (limit : Int) : Nat :=
  cutLoop mp limit (enumIds 0 path).reverse 0 none

/-- `path.slice(cutIndex)` filtered to visible nodes only: the source's
`kept` array. -/
def keptIds (mp : ChatMapping) (path : List String) (limit : Int) : List String :=
  (path.drop (findCutIndex mp path limit)).filter (isVisibleId mp)

/-- The kept set of a `trimMapping` run, in terms of the raw inputs. -/
def keptOf (mp : ChatMapping) (current : String) (limit : Int) : List String :=
  keptIds mp (pathOf mp current) (max 1 limit)

/-- JavaScript object assignment `obj[k] = v`: replace in place when the
key exists (keeping insertion order), append otherwise. -/
def insertOrReplace (m : ChatMapping) (k : String) (v : ChatNode) : ChatMapping :=
  match m with
  | [] => [(k, v)]
  | (k0, v0) :: rest =>
    if k0 = k then (k, v) :: rest else (k0, v0) :: insertOrReplace rest k v

/-- The rebuild loop over the kept ids: each kept node is re-linked with
`parent` = previous kept id (the anchor root for the first one) and
`children` = the next kept id, or `[]` at the end.  An empty id is skipped
(falsy), as is an id that no longer resolves; in both cases it still
becomes the `prev` of the next iteration, as in the source where `prevId`
is read from the `kept` array itself. -/
def rebuildKept (mp : ChatMapping) : List String → ChatMapping → Option String → ChatMapping
  | [], acc, _ => acc
  | id :: rest, acc, prev =>
    if id = "" then rebuildKept mp rest acc (some id)
    else
      match mpLookup mp id with
      | none => rebuildKept mp rest acc (some id)
      | some orig =>
        let children :=
          match rest.head? with
          | some nxt => if nxt = "" then [] else [nxt]
          | none => []
        rebuildKept mp rest (insertOrReplace acc id { orig with parent := prev, children := children }) (some id)

/-- The `turnsKept` counter of the rebuild loop (role transitions among the
visible kept nodes, `prevRole` starting as null). -/
def countKeptTurns (mp : ChatMapping) : List String → Option String → Nat
  | [], _ => 0
  | id :: rest, prevRole =>
    match mpLookup mp id with
    | none => countKeptTurns mp rest prevRole
    | some orig =>
      let role := (nodeRole orig).getD ""
      if some role ≠ prevRole ∧ isVisibleMessage orig = true then
        countKeptTurns mp rest (some role) + 1
      else countKeptTurns mp rest prevRole

/-- Result record of `trimMapping`. -/
structure TrimResult where
  mapping : ChatMapping
  current_node : String
  root : String
  keptCount : Nat
  totalCount : Nat
  visibleKept : Nat
  visibleTotal : Nat
deriving Repr, DecidableEq

/-- The conversation payload: the three fields the trimmer touches plus an
opaque bag for every other top-level field of the JSON document. -/
structure ConversationData where
  mapping : Option ChatMapping
  current_node : Option String
  root : Option String
  extra : List (String × String)
deriving Repr, DecidableEq

/-- The preserved root anchor: the first path node, provided it is truthy
and still resolves (`originalRootId` / `hasOriginalRoot` in the source). -/
def rootInfoOf (mp : ChatMapping) (current : String) : Option (String × ChatNode) :=
  match (pathOf mp current).head? with
  | some rid =>
    if rid = "" then none
    else (mpLookup mp rid).map (fun n => (rid, n))
  | none => none

/-- The anchor's rewritten children list: `kept[0] ? [kept[0]] : []`. -/
def keptHeadChildrenOf (kept : List String) : List String :=
  match kept.head? with
  | some k0 => if k0 = "" then [] else [k0]
  | none => []

/-- The rebuilt mapping before the kept loop runs: just the re-linked
anchor, when there is one. -/
def acc0Of (mp : ChatMapping) (current : String) (limit : Int) : ChatMapping :=
  match rootInfoOf mp current with
  | some (rid, rnode) =>
    [(rid, { rnode with parent := none, children := keptHeadChildrenOf (keptOf mp current limit) })]
  | none => []

/-- The fully rebuilt mapping of a trim run. -/
def newMappingOf (mp : ChatMapping) (current : String) (limit : Int) : ChatMapping :=
  rebuildKept mp (keptOf mp current limit) (acc0Of mp current limit)
    ((rootInfoOf mp current).map Prod.fst)

/-- `trimMapping(data, limit)` from the page script. -/
def trimMapping (data : ConversationData) (limit : Int) : Option TrimResult :=
  match data.mapping, data.current_node with
  | some mp, some currentNode =>
    if currentNode = "" then none
    else
      match mpLookup mp currentNode with
      | none => none
      | some _ =>
        if (keptOf mp currentNode limit).isEmpty then none
        else
          let newRoot : Option String :=
            match rootInfoOf mp currentNode with
            | some (rid, _) => some rid
            | none => (keptOf mp currentNode limit).head?
          match newRoot, (keptOf mp currentNode limit).getLast? with
          | some nr, some nc =>
            if nr = "" ∨ nc = "" then none
            else
              some { mapping := newMappingOf mp currentNode limit,
                     current_node := nc, root := nr,
                     keptCount := (keptOf mp currentNode limit).length,
                     totalCount := (pathOf mp currentNode).length,
                     visibleKept := countKeptTurns mp (keptOf mp currentNode limit) none,
                     visibleTotal := visibleTurnCount mp (pathOf mp currentNode) none }
          | _, _ => none
  | _, _ => none

/-! ## DOM helpers (content script) -/

/-- Message role vocabulary of the DOM classifier. -/
inductive MsgRole where
  | user
  | assistant
  | system
  | tool
  | unknown
deriving Repr, DecidableEq

/-- Abstract view of a DOM element: exactly the observations the helpers in
`dom-helpers.ts` make on an `HTMLElement` (dataset attributes, descendant
probes, layout reads, text content). -/
structure DomElement where
  messageAuthorRole : Option String
  messageAuthor : Option String
  datasetRole : Option String
  dataAuthorAttr : Option String
  datasetTurn : Option String
  datasetMessageId : Option String
  hasToolDescendant : Bool
  hasCopyOrRegenerateDescendant : Bool
  ariaRole : Option String
  textContent : String
  offsetParentNull : Bool
  clientRectsEmpty : Bool
  hiddenAncestor : Bool
deriving Repr, DecidableEq

/-- JavaScript truthiness of an optional string attribute. -/
def truthy : Option String → Bool
  | some s => s ≠ ""
  | none => false

/-- The `a || b || c || ''` chain over attribute reads. -/
def firstTruthy : List (Option String) → String
  | [] => ""
  | some s :: rest => if s = "" then firstTruthy rest else s
  | none :: rest => firstTruthy rest

/-- Whether the first character list leads the second. -/
def charsLead : List Char → List Char → Bool
  | [], _ => true
  | _ :: _, [] => false
  | a :: as, b :: bs => a = b && charsLead as bs

/-- Whether the first character list occurs contiguously in the second. -/
def charsWithin (p : List Char) : List Char → Bool
  | [] => charsLead p []
  | b :: bs => charsLead p (b :: bs) || charsWithin p bs

/-- Substring test, as the source's regex literals (`/system/`, `/tool/`,
...) test containment. -/
def strContains (s pat : String) : Bool :=
  charsWithin pat.toList s.toList

/-- `detectRole` from `dom-helpers.ts`: priority-ordered heuristics over
data attributes, the `data-turn` attribute, structural descendants and
ARIA roles; `unknown` otherwise. -/
def detectRole (el : DomElement) : MsgRole :=
  let author :=
    (firstTruthy [el.messageAuthorRole, el.messageAuthor, el.datasetRole, el.dataAuthorAttr]).toLower
  if strContains author "system" then .system
  else if strContains author "tool" || strContains author "function" || strContains author "plugin" then .tool
  else if strContains author "assistant" || strContains author "model" || strContains author "ai" then .assistant
  else if strContains author "user" || strContains author "you" then .user
  else
    let turnAttr := el.datasetTurn.map String.toLower
    if turnAttr = some "user" then .user
    else if turnAttr = some "assistant" then .assistant
    else if turnAttr = some "system" then .system
    else if turnAttr = some "tool" then .tool
    else if el.hasToolDescendant then .tool
    else if el.hasCopyOrRegenerateDescendant then .assistant
    else if el.ariaRole = some "status" ∨ el.ariaRole = some "log" ∨ el.ariaRole = some "alert" then .system
    else .unknown

/-- `isVisible` from `dom-helpers.ts`. -/
def isVisible (el : DomElement) : Bool :=
  if el.offsetParentNull then false
  else if el.clientRectsEmpty then false
  else if el.hiddenAncestor then false
  else true

/-- `shouldIncludeInThread`: trusted message markers are included unless an
ancestor hides them; other elements get the full visibility check. -/
def shouldIncludeInThread (el : DomElement) : Bool :=
  if truthy el.datasetTurn || truthy el.datasetMessageId then
    if el.hiddenAncestor then false else true
  else isVisible el

/-- Wrap to a signed 32-bit value, as JavaScript bitwise operators do. -/
def toInt32 (x : Int) : Int :=
  (x + 2 ^ 31) % 2 ^ 32 - 2 ^ 31

/-- One step of `simpleHash`: `hash = (hash << 5) - hash + code; hash &= hash`. -/
def hashStep (hash : Int) (code : Nat) : Int :=
  toInt32 (toInt32 (hash * 32) - hash + code)

/-- The accumulated 32-bit hash of a string. -/
def simpleHashInt (s : String) : Int :=
  s.toList.foldl (fun h ch => hashStep h ch.toNat) 0

/-- Base-36 digit characters, lowercase as in `Number.toString(36)`. -/
def digitChar36 (d : Nat) : Char :=
  if d < 10 then Char.ofNat (48 + d) else Char.ofNat (87 + d)

/-- Base-36 rendering of a natural number. -/
def natToBase36 (n : Nat) : List Char :=
  if _h : n < 36 then [digitChar36 n]
  else natToBase36 (n / 36) ++ [digitChar36 (n % 36)]
termination_by n
decreasing_by exact Nat.div_lt_self (by omega) (by omega)

/-- `simpleHash` from `dom-helpers.ts`: `Math.abs(hash).toString(36)`. -/
def simpleHash (s : String) : String :=
  (natToBase36 (simpleHashInt s).natAbs).asString

/-- `getNodeId`: prefer `data-message-id`, else position + content hash. -/
def getNodeId (el : DomElement) (index : Nat) : String :=
  let fallback := "msg-" ++ toString index ++ "-" ++ simpleHash (el.textContent.take 50)
  match el.datasetMessageId with
  | some m => if m = "" then fallback else m
  | none => fallback

/-- `DOM.MIN_CANDIDATES` from `shared/constants.ts` (declared in the
repository's contracts file): the hard safety floor. -/
def MIN_CANDIDATES : Nat := 6

/-- A classified message descriptor (`NodeInfo`): role, stable id, the
pseudo-Y order key (the document-order index) and the visibility flag. -/
structure NodeInfo where
  node : DomElement
  role : MsgRole
  id : String
  y : Nat
  visible : Bool
deriving Repr, DecidableEq

/-- The descriptor both thread builders produce for a candidate at a given
document-order index. -/
def mkNodeInfo (el : DomElement) (index : Nat) : NodeInfo :=
  { node := el, role := detectRole el, id := getNodeId el index,
    y := index, visible := true }

/-- `buildActiveThread`: empty below the candidate floor; otherwise the
candidates that pass `shouldIncludeInThread`, indexed in document order. -/
def buildActiveThread (candidates : List DomElement) : List NodeInfo :=
  if candidates.length < MIN_CANDIDATES then []
  else (candidates.filter shouldIncludeInThread).mapIdx (fun index node => mkNodeInfo node index)

/-- `buildActiveThreadFast`: the layout-read-free BOOT variant — same floor,
no visibility filtering. -/
def buildActiveThreadFast (candidates : List DomElement) : List NodeInfo :=
  if candidates.length < MIN_CANDIDATES then []
  else candidates.mapIdx (fun index node => mkNodeInfo node index)

/-! ## Trimmer state machine (`trimmer.ts`) -/

/-- The two externally visible phases. -/
inductive TrimPhase where
  | IDLE
  | OBSERVING
deriving Repr, DecidableEq

/-- The two speed modes. -/
inductive TrimMode where
  | BOOT
  | STEADY
deriving Repr, DecidableEq

/-- Persisted settings record (`LsSettings`). -/
structure LsSettings where
  version : Nat
  enabled : Bool
  keep : Int
  showStatusBar : Bool
  debug : Bool
deriving Repr, DecidableEq

/-- Modelled from the spec: `shared/constants.ts` is absent from the
source tree; the defaults follow the spec's settings schema
(schemaVersion 1, enabled, keepCount default 10 as in the page script's
`DEFAULT_CONFIG`).  Only `createInitialState` consumes this value; no
claim below depends on the concrete numbers. -/
def DEFAULT_SETTINGS : LsSettings :=
  { version := 1, enabled := true, keep := 10, showStatusBar := true, debug := false }

/-- Modelled from the spec: `TIMING.BOOT_DURATION_MS` lives in the absent
`shared/constants.ts`; the trimmer's header comment says the BOOT window
is about 1.5 s.  The concrete value is immaterial to every claim below. -/
def BOOT_DURATION_MS : Nat := 1500

/-- A mutation observer handle; only its existence and mode matter to the
state machine. -/
structure Observer where
  mode : TrimMode
deriving Repr, DecidableEq

/-- `TrimmerState` from `shared/types.ts`, as used by `trimmer.ts`.  The
conversation root element is an abstract handle. -/
structure TrimmerState where
  current : TrimPhase
  observer : Option Observer
  trimScheduled : Bool
  lastTrimTime : Nat
  conversationRoot : Option String
  settings : LsSettings
  trimMode : TrimMode
  bootStartTime : Nat
deriving Repr, DecidableEq

/-- `createInitialState` (it also resets the module-level first-trim flag,
which is threaded explicitly where needed below). -/
def createInitialState : TrimmerState :=
  { current := .IDLE, observer := none, trimScheduled := false,
    lastTrimTime := 0, conversationRoot := none, settings := DEFAULT_SETTINGS,
    trimMode := .BOOT, bootStartTime := 0 }

/-- `shouldExitBootMode`, with the module-level `firstTrimCompleted` flag
and the clock passed explicitly. -/
def shouldExitBootMode (state : TrimmerState) (firstTrimCompleted : Bool) (now : Nat) : Bool :=
  if state.trimMode ≠ .BOOT then false
  else if firstTrimCompleted then true
  else BOOT_DURATION_MS ≤ now - state.bootStartTime

/-- `maybeTransitionToSteady`: on BOOT exit, swap the observer for a
STEADY-mode one (keeping the state unchanged otherwise); `rootLookup` is
the environment's answer to `findConversationRoot()`. -/
def maybeTransitionToSteady (state : TrimmerState) (firstTrimCompleted : Bool)
    (now : Nat) (rootLookup : Option String) : TrimmerState :=
  if state.trimMode ≠ .BOOT ∨ shouldExitBootMode state firstTrimCompleted now = false then state
  else
    match state.conversationRoot.orElse (fun _ => rootLookup) with
    | none => { state with trimMode := .STEADY }
    | some root =>
      { state with trimMode := .STEADY, observer := some { mode := .STEADY },
                   conversationRoot := some root }

/-- `boot`: IDLE → OBSERVING when a conversation root is found; otherwise
the state is returned unchanged (fail-closed). -/
def boot (state : TrimmerState) (rootLookup : Option String) (now : Nat) : TrimmerState :=
  if state.current ≠ .IDLE then state
  else
    match rootLookup with
    | none => state
    | some root =>
      { state with current := .OBSERVING, observer := some { mode := .BOOT },
                   conversationRoot := some root, trimMode := .BOOT,
                   bootStartTime := now }

/-- `shutdown`: back to the initial state, preserving the settings. -/
def shutdown (state : TrimmerState) : TrimmerState :=
  { createInitialState with settings := state.settings }

/-- `scheduleTrim`: a no-op when disabled or already pending, else the
pending flag is set (the actual scheduling is a host-side effect). -/
def scheduleTrim (state : TrimmerState) : TrimmerState :=
  if state.settings.enabled = false ∨ state.trimScheduled = true then state
  else { state with trimScheduled := true }

/-- `EvaluateTrimOptions`: the optional settings snapshot taken at
schedule time. -/
structure EvaluateTrimOptions where
  force : Bool
  settings : Option LsSettings
deriving Repr, DecidableEq

/-- The DOM environment an evaluation reads: the streaming probe, the raw
candidates each collector would return, and the clock. -/
structure TrimEnv where
  streaming : Bool
  candidatesFast : List DomElement
  candidatesAccurate : List DomElement
  now : Nat
deriving Repr, DecidableEq

/-- Settings actually used by an evaluation: the snapshot if one was
provided, else the state's settings. -/
def effectiveSettings (state : TrimmerState) (opts : EvaluateTrimOptions) : LsSettings :=
  opts.settings.getD state.settings

/-- `calculateKeepCount`. -/
def calculateKeepCount (settings : LsSettings) : Int :=
  settings.keep

/-- The thread `evaluateTrim` builds: the fast builder in BOOT mode, the
accurate one in STEADY mode. -/
def builtThread (state : TrimmerState) (env : TrimEnv) : List NodeInfo :=
  if state.trimMode = .BOOT then buildActiveThreadFast env.candidatesFast
  else buildActiveThread env.candidatesAccurate

/-- Result of one evaluation: the successor state and the descriptors
handed to the batched executor (empty on every abort path). -/
structure EvalOutcome where
  state : TrimmerState
  removed : List NodeInfo
deriving Repr, DecidableEq

/-- `evaluateTrim`: precondition gates (enabled; not streaming unless in
BOOT mode; candidate floor), then `overflow = length - keep`; on overflow
the oldest `overflow` descriptors are selected for removal.  Every abort
path returns to OBSERVING with the pending flag cleared, as in the
source. -/
def evaluateTrim (state : TrimmerState) (opts : EvaluateTrimOptions) (env : TrimEnv) : EvalOutcome :=
  if (effectiveSettings state opts).enabled = false then
    { state := { state with current := .OBSERVING, trimScheduled := false }, removed := [] }
  else if state.trimMode ≠ .BOOT ∧ env.streaming = true then
    { state := { state with current := .OBSERVING, trimScheduled := false }, removed := [] }
  else if (builtThread state env).length < MIN_CANDIDATES then
    { state := { state with current := .OBSERVING, trimScheduled := false }, removed := [] }
  else if ((builtThread state env).length : Int) - calculateKeepCount (effectiveSettings state opts) ≤ 0 then
    { state := { state with current := .OBSERVING, trimScheduled := false }, removed := [] }
  else
    { state := { state with current := .OBSERVING, trimScheduled := false,
                            lastTrimTime := env.now },
      removed := (builtThread state env).take
        (((builtThread state env).length : Int) - calculateKeepCount (effectiveSettings state opts)).toNat }

/-! ## Fetch interceptor (page script) -/

/-- `LsConfig` of the page script. -/
structure LsConfig where
  enabled : Bool
  limit : Int
  debug : Bool
deriving Repr, DecidableEq

/-- `url.pathname.startsWith(p)`, via character lists. -/
def strStartsWith (s p : String) : Bool :=
  charsLead p.toList s.toList

/-- `isConversationRequest`: GET requests to `/backend-api/` paths. -/
def isConversationRequest (method : String) (pathname : String) : Bool :=
  if method ≠ "GET" then false
  else if strStartsWith pathname "/backend-api/" = false then false
  else true

/-- The pure decision core of `interceptedFetch` once the response is in
hand: `none` means the original response is served unmodified (disabled,
non-matching request, non-JSON response, parse failure — which also
stands for the catch-all error path — payload without `mapping` or
`current_node`, or a null trim); `some` is the modified payload, which
copies the parsed body and replaces exactly `mapping`, `current_node`
and `root`. -/
def interceptBody (cfg : LsConfig) (method : String) (pathname : String)
    (isJson : Bool) (parsed : Option ConversationData) : Option ConversationData :=
  if cfg.enabled = false then none
  else if isConversationRequest method pathname = false then none
  else if isJson = false then none
  else
    match parsed with
    | none => none
    | some json =>
      if json.mapping.isSome = false ∨ truthy json.current_node = false then none
      else
        match trimMapping json cfg.limit with
        | none => none
        | some trimmed =>
          some { json with mapping := some trimmed.mapping,
                           current_node := some trimmed.current_node,
                           root := some trimmed.root }

/-! ## Cross-context messaging (`shared/messages.ts`) -/

/-- What one `browser.runtime.sendMessage` attempt can yield within the
timeout window: a settled response (possibly `undefined`, modelled as
`none`), a rejection, or no settlement before the timer fires. -/
inductive AttemptOutcome where
  | resolved (response : Option LsSettings)
  | failed (message : String)
  | timeout
deriving Repr, DecidableEq

/-- `sendMessageWithTimeout` as implemented in `shared/messages.ts`: a
single `Promise.race` of one `sendMessage` call against a timeout
rejection.  The input lists what each successive attempt would get from
the remote end; the result is the number of attempts actually made and
the outcome of the call.  The implementation consumes exactly one
outcome: there is no retry loop of any kind. -/
def sendMessageWithTimeout (outcomes : List AttemptOutcome) : Nat × Except String (Option LsSettings) :=
  match outcomes.head? with
  | none => (1, .error "Message timeout")
  | some .timeout => (1, .error "Message timeout")
  | some (.resolved r) => (1, .ok r)
  | some (.failed e) => (1, .error e)

/-- Modelled from the repository's own unit tests (the retry suite for
`sendMessageWithTimeout`) and the spec's HostIntegrationFailure taxonomy:
the documented behaviour retries an undefined (empty) answer and an
error up to 3 extra times, fails terminally after the retries are
exhausted, and never retries a timeout.  This is the behaviour the
shipped implementation is tested against, stated here for comparison. -/
def sendMessageWithTimeoutTested (outcomes : List AttemptOutcome) : Nat × Except String (Option LsSettings) :=
  go outcomes 1
where
  go : List AttemptOutcome → Nat → Nat × Except String (Option LsSettings)
    | [], attempt => (attempt, .error "Message timeout")
    | .timeout :: _, attempt => (attempt, .error "Message timeout")
    | .resolved (some r) :: _, attempt => (attempt, .ok (some r))
    | .resolved none :: rest, attempt =>
      if attempt < 4 then go rest (attempt + 1)
      else (attempt, .error "Service worker not responding - received undefined after retries")
    | .failed e :: rest, attempt =>
      if attempt < 4 then go rest (attempt + 1)
      else (attempt, .error e)

/-! ## Concrete payloads used by the theorems below -/

/-- A node carrying a message with the given author role. -/
def mkMsgNode (parent : Option String) (children : List String) (role : Option String) : ChatNode :=
  { parent := parent, children := children,
    message := some { author := some { role := role } } }

/-- A message-less node (like the host's role-less root anchor). -/
def mkAnchorNode (parent : Option String) (children : List String) : ChatNode :=
  { parent := parent, children := children, message := none }

/-- The spec's turn-collapsing path: `[user, assistant, assistant, user,
assistant]`, a linear chain with the first user node as parent-less root. -/
def c2mp : ChatMapping :=
  [ ("n0", mkMsgNode none ["n1"] (some "user")),
    ("n1", mkMsgNode (some "n0") ["n2"] (some "assistant")),
    ("n2", mkMsgNode (some "n1") ["n3"] (some "assistant")),
    ("n3", mkMsgNode (some "n2") ["n4"] (some "user")),
    ("n4", mkMsgNode (some "n3") [] (some "assistant")) ]

/-- Payload for the turn-collapsing scenario. -/
def c2data : ConversationData :=
  { mapping := some c2mp, current_node := some "n4", root := some "n0", extra := [] }

/-- A two-node parent-link cycle reachable from `current_node`: the walk
from `a` never reaches a parent-less node. -/
def cycMp : ChatMapping :=
  [ ("a", mkMsgNode (some "b") [] (some "assistant")),
    ("b", mkMsgNode (some "a") [] (some "user")) ]

/-- Payload whose parent graph is cyclic. -/
def cycData : ConversationData :=
  { mapping := some cycMp, current_node := some "a", root := some "b", extra := [] }

/-- An under-limit tree with a branch off the active path: anchor `r0` has
two children, only `a` is on the path from `current_node`. -/
def brMp : ChatMapping :=
  [ ("r0", mkAnchorNode none ["a", "b"]),
    ("a", mkMsgNode (some "r0") [] (some "user")),
    ("b", mkMsgNode (some "r0") [] (some "user")) ]

/-- Payload for the branch example. -/
def brData : ConversationData :=
  { mapping := some brMp, current_node := some "a", root := some "r0", extra := [] }

/-- A path with a hidden (system) node strictly inside the retained
range. -/
def c3mp : ChatMapping :=
  [ ("r0", mkAnchorNode none ["u1"]),
    ("u1", mkMsgNode (some "r0") ["s1"] (some "user")),
    ("s1", mkMsgNode (some "u1") ["a1"] (some "system")),
    ("a1", mkMsgNode (some "s1") [] (some "assistant")) ]

/-- Payload for the hidden-role example. -/
def c3data : ConversationData :=
  { mapping := some c3mp, current_node := some "a1", root := some "r0", extra := [] }

/-- The trimmer-state invariant claimed by the spec: a non-null observer
exactly in the Observing phase. -/
def trimInvariant (s : TrimmerState) : Prop :=
  s.observer ≠ none ↔ s.current = TrimPhase.OBSERVING

/-- A settings snapshot with the extension enabled. -/
def enabledSnapshot : LsSettings :=
  { version := 1, enabled := true, keep := 10, showStatusBar := false, debug := false }

/-- Evaluation options carrying the enabled snapshot. -/
def c7opts : EvaluateTrimOptions :=
  { force := false, settings := some enabledSnapshot }

/-- A quiet environment with no candidates. -/
def c7env : TrimEnv :=
  { streaming := false, candidatesFast := [], candidatesAccurate := [], now := 0 }

/-! ## Theorems -/

/-- C2: for the path `[user, assistant, assistant, user, assistant]` (nodes
`n0..n4`) with `keepTurnCount = 2`, turns are counted by role transitions
(4 turns over 5 nodes) and the turn at the cut is not split: the kept set
is exactly the final user and assistant nodes `["n3", "n4"]`, with
`keptCount = 2`, `current_node = "n4"`, and the doubled assistant nodes
`n1`, `n2` absent from the rebuilt mapping.  The mapping additionally
retains `n0` solely as the preserved root anchor required by the host
format, re-linked to point at the first kept node. -/
theorem claim2_turn_collapsing :
    keptOf c2mp "n4" 2 = ["n3", "n4"] ∧
    trimMapping c2data 2 =
      some { mapping :=
               [ ("n0", { parent := none, children := ["n3"],
                          message := some { author := some { role := some "user" } } }),
                 ("n3", { parent := some "n0", children := ["n4"],
                          message := some { author := some { role := some "user" } } }),
                 ("n4", { parent := some "n3", children := [],
                          message := some { author := some { role := some "assistant" } } }) ],
             current_node := "n4", root := "n0", keptCount := 2, totalCount := 5,
             visibleKept := 2, visibleTotal := 4 } := by
  decide

/-- C4 counterexample: on a payload whose parent links form a cycle
reachable from `current_node` (`a.parent = b`, `b.parent = a`), the tree
trimmer does NOT return null: the visited-set guard merely breaks the
walk, and the partial path collected before the repeat is trimmed and
rebuilt as usual. -/
theorem claim4_counterexample :
    (mpLookup cycMp "a").map ChatNode.parent = some (some "b") ∧
    (mpLookup cycMp "b").map ChatNode.parent = some (some "a") ∧
    trimMapping cycData 10 ≠ none := by
  decide

/-- C5 counterexample: an under-limit payload (a single visible turn, limit
10, so `overflow ≤ 0` in the spec's sense) for which the rebuilt tree is
not identical to the input: the off-path branch node `b` is dropped and
the anchor's children list is rewritten from `["a", "b"]` to `["a"]`. -/
theorem claim5_counterexample :
    (trimMapping brData 10).map TrimResult.visibleTotal = some 1 ∧
    (trimMapping brData 10).map (fun r => mpLookup r.mapping "b") = some none ∧
    (trimMapping brData 10).map (fun r => (mpLookup r.mapping "r0").map ChatNode.children) =
      some (some ["a"]) ∧
    mpLookup brMp "b" = some (mkMsgNode (some "r0") [] (some "user")) ∧
    (mpLookup brMp "r0").map ChatNode.children = some ["a", "b"] := by
  decide

/-- C7 counterexample: the initial state satisfies the invariant
(`observer = null`, phase Idle), yet one `evaluateTrim` step on it — with
the extension enabled and too few candidates — produces a state with
phase `OBSERVING` and a still-null observer, because every return path of
`evaluateTrim` unconditionally sets the phase to `OBSERVING` without
touching the observer.  The invariant is therefore not preserved by every
state-machine operation. -/
theorem claim7_counterexample :
    trimInvariant createInitialState ∧
    (evaluateTrim createInitialState c7opts c7env).state.current = TrimPhase.OBSERVING ∧
    (evaluateTrim createInitialState c7opts c7env).state.observer = none ∧
    ¬ trimInvariant (evaluateTrim createInitialState c7opts c7env).state := by
  refine ⟨?_, rfl, rfl, ?_⟩
  · unfold trimInvariant createInitialState
    simp
  · unfold trimInvariant
    intro h
    have h2 := h.mpr rfl
    exact h2 rfl

/-- C9: evaluating the shipped `sendMessageWithTimeout` against the remote
behaviour "first answer is undefined, a second attempt would succeed":
the implementation makes exactly one attempt and resolves with the
undefined answer, whereas the behaviour fixed by the repository's own
retry test-suite (and the spec's error taxonomy) retries and succeeds on
the second attempt; a timeout is terminal after one attempt in both. -/
theorem claim9_no_retry_in_code :
    sendMessageWithTimeout [.resolved none, .resolved (some DEFAULT_SETTINGS)] = (1, .ok none) ∧
    sendMessageWithTimeoutTested [.resolved none, .resolved (some DEFAULT_SETTINGS)] =
      (2, .ok (some DEFAULT_SETTINGS)) ∧
    sendMessageWithTimeout [.timeout, .resolved (some DEFAULT_SETTINGS)] =
      (1, .error "Message timeout") ∧
    sendMessageWithTimeoutTested [.timeout, .resolved (some DEFAULT_SETTINGS)] =
      (1, .error "Message timeout") ∧
    sendMessageWithTimeout [.resolved none, .resolved none, .resolved none, .resolved none] =
      (1, .ok none) ∧
    sendMessageWithTimeoutTested [.resolved none, .resolved none, .resolved none, .resolved none] =
      (4, .error "Service worker not responding - received undefined after retries") := by
  exact ⟨rfl, rfl, rfl, rfl, rfl, rfl⟩

/-- C6: the hard safety floor.  Both thread builders return the empty list
whenever fewer than `MIN_CANDIDATES = 6` candidates are collected, and
`evaluateTrim` hands nothing to the executor whenever the built thread
has fewer than `MIN_CANDIDATES` descriptors — regardless of the
configured keep count and of every other input. -/
theorem claim6_safety_floor :
    (∀ cs : List DomElement, cs.length < MIN_CANDIDATES →
        buildActiveThread cs = [] ∧ buildActiveThreadFast cs = []) ∧
    (∀ (state : TrimmerState) (opts : EvaluateTrimOptions) (env : TrimEnv),
        (builtThread state env).length < MIN_CANDIDATES →
        (evaluateTrim state opts env).removed = []) := by
  constructor
  · intro cs h
    constructor
    · unfold buildActiveThread
      rw [if_pos h]
    · unfold buildActiveThreadFast
      rw [if_pos h]
  · intro state opts env h
    unfold evaluateTrim
    split_ifs <;> rfl

/-- C6 witness: five candidates are below the floor, so the accurate
builder returns the empty thread and an evaluation over that environment
removes nothing. -/
theorem claim6_safety_floor_witness :
    buildActiveThread [{ messageAuthorRole := some "user", messageAuthor := none,
                         datasetRole := none, dataAuthorAttr := none, datasetTurn := none,
                         datasetMessageId := some "m1", hasToolDescendant := false,
                         hasCopyOrRegenerateDescendant := false, ariaRole := none,
                         textContent := "hello", offsetParentNull := false,
                         clientRectsEmpty := false, hiddenAncestor := false }] = [] ∧
    (evaluateTrim createInitialState
        { force := false, settings := none }
        { streaming := false, candidatesFast := [], candidatesAccurate := [], now := 0 }).removed = [] := by
  constructor
  · exact (claim6_safety_floor.1 _ (by decide)).1
  · exact claim6_safety_floor.2 createInitialState
      { force := false, settings := none }
      { streaming := false, candidatesFast := [], candidatesAccurate := [], now := 0 }
      (by decide)

/-- C5 (amended): when `overflow = threadLength - keepCount ≤ 0`, the DOM
variant is a pure no-op on the data: `evaluateTrim` removes nothing and
the state is unchanged except for the bookkeeping phase/pending-flag
reset that every evaluation performs (`lastTrimTime`, observer, root,
settings and mode are untouched).  The network variant is NOT an identity
on such inputs — see the counterexample — because `trimMapping` rebuilds
unconditionally, dropping off-path branches and hidden nodes. -/
theorem claim5_amended_noop (state : TrimmerState) (opts : EvaluateTrimOptions) (env : TrimEnv)
    (h : ((builtThread state env).length : Int) ≤ (effectiveSettings state opts).keep) :
    evaluateTrim state opts env =
      { state := { state with current := .OBSERVING, trimScheduled := false }, removed := [] } := by
  unfold evaluateTrim calculateKeepCount
  split_ifs <;> first | rfl | omega

/-- C5 witness: a no-candidate environment with the default keep count is
below the overflow threshold, and the evaluation is the identity up to
the phase/pending reset. -/
theorem claim5_amended_noop_witness :
    evaluateTrim createInitialState
        { force := false, settings := none }
        { streaming := false, candidatesFast := [], candidatesAccurate := [], now := 7 } =
      { state := { createInitialState with current := .OBSERVING, trimScheduled := false },
        removed := [] } :=
  claim5_amended_noop createInitialState
    { force := false, settings := none }
    { streaming := false, candidatesFast := [], candidatesAccurate := [], now := 7 }
    (by decide)

/-- The overflow of an evaluation, as a natural number. -/
def overflowOf (state : TrimmerState) (opts : EvaluateTrimOptions) (env : TrimEnv) : Nat :=
  (((builtThread state env).length : Int) - (effectiveSettings state opts).keep).toNat

/-- The order keys assigned by the descriptor constructor are the
document-order indices. -/
lemma mapIdx_map_y (cs : List DomElement) :
    ((cs.mapIdx fun index el => mkNodeInfo el index).map NodeInfo.y) = List.range cs.length := by
  rw [List.mapIdx_eq_enum_map, List.map_map]
  have h : (NodeInfo.y ∘ Function.uncurry fun index el => mkNodeInfo el index) = Prod.fst := by
    funext p
    cases p
    rfl
  rw [h, List.enum_map_fst]

/-- Both builders produce threads whose order keys are exactly
`0, 1, 2, ...` in document order. -/
lemma builtThread_map_y (state : TrimmerState) (env : TrimEnv) :
    (builtThread state env).map NodeInfo.y = List.range' 0 (builtThread state env).length := by
  unfold builtThread buildActiveThread buildActiveThreadFast
  split_ifs with h1 h2 h3
  · rfl
  · rw [mapIdx_map_y, List.length_mapIdx, List.range_eq_range']
  · rfl
  · rw [mapIdx_map_y, List.length_mapIdx, List.range_eq_range']

/-- On a list whose order keys are `off, off + 1, ...`, keeping the keys
below `off + k` is exactly taking the first `k` entries. -/
lemma filter_lt_of_map_y (l : List NodeInfo) : ∀ (off k : Nat),
    l.map NodeInfo.y = List.range' off l.length →
    l.filter (fun n => decide (n.y < off + k)) = l.take k := by
  induction l with
  | nil => intro off k _; simp
  | cons a t ih =>
    intro off k h
    rw [List.map_cons, List.length_cons, List.range'_succ] at h
    injection h with h1 h2
    cases k with
    | zero =>
      simp only [List.take_zero]
      rw [List.filter_eq_nil_iff]
      intro x hx
      rcases List.mem_cons.mp hx with hxa | hxt
      · subst hxa
        simp [h1]
      · have hy : x.y ∈ List.range' (off + 1) t.length := by
          rw [← h2]
          exact List.mem_map_of_mem NodeInfo.y hxt
        have := (List.mem_range'_1.mp hy).1
        simp only [decide_eq_true_eq]
        omega
    | succ k =>
      rw [List.filter_cons, if_pos (show decide (a.y < off + (k + 1)) = true by
        simp only [decide_eq_true_eq]; omega), List.take_succ_cons]
      have heq : off + (k + 1) = (off + 1) + k := by omega
      simp only [heq]
      rw [ih (off + 1) k h2]

/-- On a list whose order keys are `off, off + 1, ...`, keeping the keys
at least `off + k` is exactly dropping the first `k` entries. -/
lemma filter_ge_of_map_y (l : List NodeInfo) : ∀ (off k : Nat),
    l.map NodeInfo.y = List.range' off l.length →
    l.filter (fun n => decide (off + k ≤ n.y)) = l.drop k := by
  induction l with
  | nil => intro off k _; simp
  | cons a t ih =>
    intro off k h
    rw [List.map_cons, List.length_cons, List.range'_succ] at h
    injection h with h1 h2
    cases k with
    | zero =>
      simp only [List.drop_zero]
      rw [List.filter_eq_self]
      intro x hx
      rcases List.mem_cons.mp hx with hxa | hxt
      · subst hxa
        simp [h1]
      · have hy : x.y ∈ List.range' (off + 1) t.length := by
          rw [← h2]
          exact List.mem_map_of_mem NodeInfo.y hxt
        have := (List.mem_range'_1.mp hy).1
        simp only [decide_eq_true_eq]
        omega
    | succ k =>
      rw [List.filter_cons, if_neg (show ¬ decide (off + (k + 1) ≤ a.y) = true by
        simp only [decide_eq_true_eq]; omega), List.drop_succ_cons]
      have heq : off + (k + 1) = (off + 1) + k := by omega
      simp only [heq]
      rw [ih (off + 1) k h2]

/-- C1: when all precondition gates pass (enabled; in BOOT mode or not
streaming; thread length at least the candidate floor) and
`overflow = threadLength - keepCount > 0`, the evaluation removes exactly
the `overflow` descriptors with the smallest order keys — the first
`overflow` entries of the document-ordered thread — so the survivors are
exactly the `keepCount` descriptors with the largest order keys. -/
theorem claim1_oldest_removed (state : TrimmerState) (opts : EvaluateTrimOptions) (env : TrimEnv)
    (henabled : (effectiveSettings state opts).enabled = true)
    (hstream : state.trimMode = TrimMode.BOOT ∨ env.streaming = false)
    (hmin : MIN_CANDIDATES ≤ (builtThread state env).length)
    (hkeep : 0 < (effectiveSettings state opts).keep)
    (hover : (effectiveSettings state opts).keep < ((builtThread state env).length : Int)) :
    (evaluateTrim state opts env).removed =
      (builtThread state env).filter (fun n => decide (n.y < overflowOf state opts env)) ∧
    (builtThread state env).filter (fun n => decide (overflowOf state opts env ≤ n.y)) =
      (builtThread state env).drop (overflowOf state opts env) ∧
    ((builtThread state env).drop (overflowOf state opts env)).length =
      (effectiveSettings state opts).keep.toNat := by
  have hmap := builtThread_map_y state env
  have htake := filter_lt_of_map_y (builtThread state env) 0 (overflowOf state opts env) hmap
  have hdrop := filter_ge_of_map_y (builtThread state env) 0 (overflowOf state opts env) hmap
  simp only [Nat.zero_add] at htake hdrop
  refine ⟨?_, hdrop, ?_⟩
  · rw [htake]
    unfold evaluateTrim calculateKeepCount
    rw [if_neg (by simp [henabled]), if_neg ?hs, if_neg (by omega), if_neg (by omega)]
    case hs =>
      rcases hstream with hb | hns
      · intro hc
        exact hc.1 hb
      · intro hc
        rw [hns] at hc
        exact Bool.false_ne_true hc.2
    rfl
  · rw [List.length_drop]
    unfold overflowOf
    omega

/-- C1 witness candidates: 25 trusted message elements. -/
def c1cands : List DomElement :=
  (List.range 25).map (fun i =>
    { messageAuthorRole := if i % 2 = 0 then some "user" else some "assistant",
      messageAuthor := none, datasetRole := none, dataAuthorAttr := none,
      datasetTurn := none, datasetMessageId := some ("m" ++ toString i),
      hasToolDescendant := false, hasCopyOrRegenerateDescendant := false,
      ariaRole := none, textContent := "message body text", offsetParentNull := false,
      clientRectsEmpty := false, hiddenAncestor := false })

/-- C1 witness environment. -/
def c1env : TrimEnv :=
  { streaming := false, candidatesFast := c1cands, candidatesAccurate := c1cands, now := 3 }

/-- C1 witness options: keep 10 of the 25 descriptors. -/
def c1opts : EvaluateTrimOptions :=
  { force := false,
    settings := some { version := 1, enabled := true, keep := 10,
                       showStatusBar := false, debug := false } }

/-- C1 witness: with 25 descriptors (order keys 0..24) and keep = 10, the
15 oldest are removed and the survivors carry order keys 15..24. -/
theorem claim1_oldest_removed_witness :
    ((evaluateTrim createInitialState c1opts c1env).removed =
      (builtThread createInitialState c1env).filter
        (fun n => decide (n.y < overflowOf createInitialState c1opts c1env)) ∧
    (builtThread createInitialState c1env).filter
        (fun n => decide (overflowOf createInitialState c1opts c1env ≤ n.y)) =
      (builtThread createInitialState c1env).drop (overflowOf createInitialState c1opts c1env) ∧
    ((builtThread createInitialState c1env).drop (overflowOf createInitialState c1opts c1env)).length =
      (effectiveSettings createInitialState c1opts).keep.toNat) ∧
    ((builtThread createInitialState c1env).drop (overflowOf createInitialState c1opts c1env)).map NodeInfo.y =
      [15, 16, 17, 18, 19, 20, 21, 22, 23, 24] := by
  constructor
  · exact claim1_oldest_removed createInitialState c1opts c1env
      (by decide) (Or.inl rfl) (by decide) (by decide) (by decide)
  · decide

/-- C8: the interceptor's frame effect.  (i) Any request that fails the
interception predicate (GET to a `/backend-api/` path) is served the
original response; (ii) whenever trimming returns null — and likewise on
a parse failure, a non-JSON response, a disabled extension, or a payload
without `mapping`/`current_node` — the original response is served; and
(iii) any modified payload is the parsed body with exactly the `mapping`,
`current_node` and `root` fields replaced by the trim result, every other
top-level field (the `extra` bag) preserved. -/
theorem claim8_interceptor_frame (cfg : LsConfig) (method pathname : String) (isJson : Bool)
    (parsed : Option ConversationData) :
    (isConversationRequest method pathname = false →
      interceptBody cfg method pathname isJson parsed = none) ∧
    (∀ json, parsed = some json → trimMapping json cfg.limit = none →
      interceptBody cfg method pathname isJson parsed = none) ∧
    (∀ out, interceptBody cfg method pathname isJson parsed = some out →
      ∃ json trimmed, parsed = some json ∧ trimMapping json cfg.limit = some trimmed ∧
        out = { json with mapping := some trimmed.mapping,
                          current_node := some trimmed.current_node,
                          root := some trimmed.root }) := by
  refine ⟨?_, ?_, ?_⟩
  · intro h
    unfold interceptBody
    split_ifs <;> rfl
  · intro json hp ht
    subst hp
    unfold interceptBody
    split_ifs <;> try rfl
    dsimp only
    split_ifs with e4
    · rfl
    · rw [ht]
  · intro out hout
    unfold interceptBody at hout
    by_cases e1 : cfg.enabled = false
    · rw [if_pos e1] at hout
      exact Option.noConfusion hout
    rw [if_neg e1] at hout
    by_cases e2 : isConversationRequest method pathname = false
    · rw [if_pos e2] at hout
      exact Option.noConfusion hout
    rw [if_neg e2] at hout
    by_cases e3 : isJson = false
    · rw [if_pos e3] at hout
      exact Option.noConfusion hout
    rw [if_neg e3] at hout
    cases hp : parsed with
    | none =>
      rw [hp] at hout
      exact Option.noConfusion hout
    | some json =>
      rw [hp] at hout
      dsimp only at hout
      by_cases e4 : (json.mapping.isSome = false ∨ truthy json.current_node = false)
      · rw [if_pos e4] at hout
        exact Option.noConfusion hout
      rw [if_neg e4] at hout
      cases htm : trimMapping json cfg.limit with
      | none =>
        rw [htm] at hout
        exact Option.noConfusion hout
      | some t =>
        rw [htm] at hout
        dsimp only at hout
        refine ⟨json, t, rfl, htm, ?_⟩
        injection hout with h
        exact h.symm

/-- C8 witness config. -/
def c8cfg : LsConfig := { enabled := true, limit := 2, debug := false }

/-- C8 witness payload: the turn-collapsing mapping plus an unrelated
top-level field. -/
def c8data : ConversationData :=
  { mapping := some c2mp, current_node := some "n4", root := some "n0",
    extra := [("title", "hello")] }

/-- The modified payload the interceptor produces for `c8data`: only the
three tree fields change, the extra field survives. -/
def c8out : ConversationData :=
  { mapping := some
      [ ("n0", { parent := none, children := ["n3"],
                 message := some { author := some { role := some "user" } } }),
        ("n3", { parent := some "n0", children := ["n4"],
                 message := some { author := some { role := some "user" } } }),
        ("n4", { parent := some "n3", children := [],
                 message := some { author := some { role := some "assistant" } } }) ],
    current_node := some "n4", root := some "n0",
    extra := [("title", "hello")] }

/-- C8 witness: a POST request is not intercepted, and a GET interception
of the concrete payload replaces exactly the three tree fields. -/
theorem claim8_interceptor_frame_witness :
    interceptBody c8cfg "POST" "/backend-api/conversation/1" true (some c8data) = none ∧
    interceptBody c8cfg "GET" "/backend-api/conversation/1" true (some c8data) = some c8out ∧
    (∃ json trimmed, (some c8data : Option ConversationData) = some json ∧
        trimMapping json c8cfg.limit = some trimmed ∧
        c8out = { json with mapping := some trimmed.mapping,
                            current_node := some trimmed.current_node,
                            root := some trimmed.root }) := by
  refine ⟨?_, by decide, ?_⟩
  · exact (claim8_interceptor_frame c8cfg "POST" "/backend-api/conversation/1" true
      (some c8data)).1 (by decide)
  · exact (claim8_interceptor_frame c8cfg "GET" "/backend-api/conversation/1" true
      (some c8data)).2.2 c8out (by decide)

/-- The walk only ever appends to its path accumulator. -/
lemma buildPathAux_append (mp : ChatMapping) :
    ∀ (fuel : Nat) (cursor : Option String) (visited path : List String),
      ∃ l, (buildPathAux mp fuel cursor visited path).1 = path ++ l := by
  intro fuel
  induction fuel with
  | zero =>
    intro cursor visited path
    exact ⟨[], by simp [buildPathAux]⟩
  | succ fuel ih =>
    intro cursor visited path
    cases cursor with
    | none => exact ⟨[], by simp [buildPathAux]⟩
    | some c =>
      by_cases hc : c = ""
      · exact ⟨[], by simp [buildPathAux, hc]⟩
      cases hl : mpLookup mp c with
      | none => exact ⟨[], by simp [buildPathAux, hc, hl]⟩
      | some node =>
        by_cases hv : c ∈ visited
        · exact ⟨[], by simp [buildPathAux, hc, hl, hv]⟩
        · obtain ⟨l, hl2⟩ := ih node.parent (c :: visited) (path ++ [c])
          refine ⟨c :: l, ?_⟩
          simp only [buildPathAux, hc, hl, hv, if_false]
          rw [hl2, List.append_assoc]
          rfl

/-- Invariants of the walk: starting from a duplicate-free accumulator
covered by the visited set, whose entries are truthy resolvable ids, the
final path keeps those properties (each pushed id passed the truthiness,
lookup and visited-set guards). -/
lemma buildPathAux_sound (mp : ChatMapping) :
    ∀ (fuel : Nat) (cursor : Option String) (visited path : List String),
      path.Nodup → (∀ x ∈ path, x ∈ visited) →
      (∀ x ∈ path, x ≠ "" ∧ (mpLookup mp x).isSome = true) →
      ((buildPathAux mp fuel cursor visited path).1.Nodup ∧
        ∀ x ∈ (buildPathAux mp fuel cursor visited path).1,
          x ≠ "" ∧ (mpLookup mp x).isSome = true) := by
  intro fuel
  induction fuel with
  | zero =>
    intro cursor visited path h1 _h2 h3
    exact ⟨h1, h3⟩
  | succ fuel ih =>
    intro cursor visited path h1 h2 h3
    cases cursor with
    | none => exact ⟨h1, h3⟩
    | some c =>
      by_cases hc : c = ""
      · simpa [buildPathAux, hc] using And.intro h1 h3
      cases hl : mpLookup mp c with
      | none => simpa [buildPathAux, hc, hl] using And.intro h1 h3
      | some node =>
        by_cases hv : c ∈ visited
        · simpa [buildPathAux, hc, hl, hv] using And.intro h1 h3
        · have hcp : c ∉ path := fun hmem => hv (h2 c hmem)
          have h1a : (path ++ [c]).Nodup := by
            rw [List.nodup_append]
            exact ⟨h1, List.nodup_singleton c, by
              intro x hx hxc
              rcases List.mem_singleton.mp hxc with rfl
              exact hcp hx⟩
          have h2a : ∀ x ∈ path ++ [c], x ∈ c :: visited := by
            intro x hx
            rcases List.mem_append.mp hx with hx | hx
            · exact List.mem_cons_of_mem c (h2 x hx)
            · rcases List.mem_singleton.mp hx with rfl
              exact List.mem_cons_self x visited
          have h3a : ∀ x ∈ path ++ [c], x ≠ "" ∧ (mpLookup mp x).isSome = true := by
            intro x hx
            rcases List.mem_append.mp hx with hx | hx
            · exact h3 x hx
            · rcases List.mem_singleton.mp hx with rfl
              exact ⟨hc, by rw [hl]; rfl⟩
          have := ih node.parent (c :: visited) (path ++ [c]) h1a h2a h3a
          simpa [buildPathAux, hc, hl, hv, if_neg hc, if_neg hv] using this

/-- The chronological path has no duplicates. -/
lemma pathOf_nodup (mp : ChatMapping) (current : String) : (pathOf mp current).Nodup := by
  unfold pathOf
  exact List.nodup_reverse.mpr
    (buildPathAux_sound mp (mp.length + 1) (some current) [] [] List.nodup_nil
      (by intro x hx; cases hx) (by intro x hx; cases hx)).1

/-- Every path id is truthy and resolves in the mapping. -/
lemma pathOf_mem_props (mp : ChatMapping) (current : String) :
    ∀ x ∈ pathOf mp current, x ≠ "" ∧ (mpLookup mp x).isSome = true := by
  intro x hx
  exact (buildPathAux_sound mp (mp.length + 1) (some current) [] [] List.nodup_nil
      (by intro y hy; cases hy) (by intro y hy; cases hy)).2 x (List.mem_reverse.mp hx)

/-- When `current_node` passes the guards, the walk pushes at least that
node, so the chronological path is non-empty. -/
lemma pathOf_ne_nil (mp : ChatMapping) (current : String)
    (h1 : current ≠ "") (h2 : (mpLookup mp current).isSome = true) :
    pathOf mp current ≠ [] := by
  unfold pathOf
  cases hl : mpLookup mp current with
  | none => rw [hl] at h2; cases h2
  | some node =>
    have hstep : buildPathAux mp (mp.length + 1) (some current) [] [] =
        buildPathAux mp mp.length node.parent [current] [current] := by
      simp only [buildPathAux, hl]
      rw [if_neg h1, if_neg (by intro hx; cases hx)]
      rfl
    obtain ⟨l, hl2⟩ := buildPathAux_append mp mp.length node.parent [current] [current]
    rw [hstep, hl2]
    simp

/-- The kept list is a sublist of the chronological path. -/
lemma keptOf_sublist (mp : ChatMapping) (current : String) (limit : Int) :
    (keptOf mp current limit).Sublist (pathOf mp current) := by
  unfold keptOf keptIds
  exact List.Sublist.trans (List.filter_sublist _) (List.drop_sublist _ _)

/-- The kept list has no duplicates. -/
lemma keptOf_nodup (mp : ChatMapping) (current : String) (limit : Int) :
    (keptOf mp current limit).Nodup :=
  List.Nodup.sublist (keptOf_sublist mp current limit) (pathOf_nodup mp current)

/-- Every kept id is a visible message id. -/
lemma keptOf_visible (mp : ChatMapping) (current : String) (limit : Int) :
    ∀ id ∈ keptOf mp current limit, isVisibleId mp id = true := by
  intro id hid
  unfold keptOf keptIds at hid
  exact (List.mem_filter.mp hid).2

/-- Every kept id is truthy and resolves in the mapping. -/
lemma keptOf_props (mp : ChatMapping) (current : String) (limit : Int) :
    ∀ id ∈ keptOf mp current limit, id ≠ "" ∧ (mpLookup mp id).isSome = true := by
  intro id hid
  exact pathOf_mem_props mp current id ((keptOf_sublist mp current limit).subset hid)

/-- Assigning a key makes lookup of that key return the new value. -/
lemma mpLookup_insertOrReplace_self (m : ChatMapping) (k : String) (v : ChatNode) :
    mpLookup (insertOrReplace m k v) k = some v := by
  induction m with
  | nil => simp [insertOrReplace, mpLookup]
  | cons kv rest ih =>
    obtain ⟨k0, v0⟩ := kv
    by_cases hk : k0 = k
    · simp [insertOrReplace, hk, mpLookup]
    · simp only [insertOrReplace, hk, if_false, mpLookup]
      exact ih

/-- Assigning a key leaves other lookups unchanged. -/
lemma mpLookup_insertOrReplace_ne (m : ChatMapping) (k : String) (v : ChatNode)
    (k2 : String) (h : k2 ≠ k) :
    mpLookup (insertOrReplace m k v) k2 = mpLookup m k2 := by
  induction m with
  | nil =>
    simp only [insertOrReplace, mpLookup]
    rw [if_neg (fun he => h he.symm)]
  | cons kv rest ih =>
    obtain ⟨k0, v0⟩ := kv
    by_cases hk : k0 = k
    · subst hk
      simp only [insertOrReplace, if_pos rfl, mpLookup]
      rw [if_neg (fun he => h he.symm), if_neg (fun he => h he.symm)]
    · simp only [insertOrReplace, hk, if_false, mpLookup]
      by_cases hk2 : k0 = k2
      · rw [if_pos hk2, if_pos hk2]
      · rw [if_neg hk2, if_neg hk2]
        exact ih

/-- A successful lookup after an assignment is the assigned value or an
old entry. -/
lemma mpLookup_insertOrReplace_cases (m : ChatMapping) (k : String) (v : ChatNode)
    (k2 : String) (n : ChatNode) (h : mpLookup (insertOrReplace m k v) k2 = some n) :
    (k2 = k ∧ n = v) ∨ mpLookup m k2 = some n := by
  by_cases hk : k2 = k
  · subst hk
    rw [mpLookup_insertOrReplace_self] at h
    exact Or.inl ⟨rfl, (Option.some.injEq _ _ ▸ h).symm⟩
  · rw [mpLookup_insertOrReplace_ne m k v k2 hk] at h
    exact Or.inr h

/-- Ids outside the kept list are untouched by the rebuild loop. -/
lemma rebuildKept_lookup_not_mem (mp : ChatMapping) :
    ∀ (kept : List String) (acc : ChatMapping) (prev : Option String) (k : String),
      k ∉ kept →
      mpLookup (rebuildKept mp kept acc prev) k = mpLookup acc k := by
  intro kept
  induction kept with
  | nil => intro acc prev k _; rfl
  | cons id rest ih =>
    intro acc prev k hk
    have hkid : k ≠ id := fun he => hk (he ▸ List.mem_cons_self id rest)
    have hkrest : k ∉ rest := fun hm => hk (List.mem_cons_of_mem id hm)
    by_cases hid : id = ""
    · simp only [rebuildKept, hid, if_true]
      exact ih acc (some "") k hkrest
    cases hl : mpLookup mp id with
    | none =>
      simp only [rebuildKept, hid, if_false, hl]
      exact ih acc (some id) k hkrest
    | some orig =>
      simp only [rebuildKept, hid, if_false, hl]
      rw [ih _ (some id) k hkrest, mpLookup_insertOrReplace_ne _ _ _ _ hkid]

/-- Every id in the rebuilt mapping is a kept id or was already in the
accumulator. -/
lemma rebuildKept_domain (mp : ChatMapping) :
    ∀ (kept : List String) (acc : ChatMapping) (prev : Option String) (k : String),
      (mpLookup (rebuildKept mp kept acc prev) k).isSome = true →
      k ∈ kept ∨ (mpLookup acc k).isSome = true := by
  intro kept
  induction kept with
  | nil => intro acc prev k h; exact Or.inr h
  | cons id rest ih =>
    intro acc prev k h
    by_cases hid : id = ""
    · simp only [rebuildKept, hid, if_true] at h
      rcases ih acc (some "") k h with hm | hm
      · exact Or.inl (List.mem_cons_of_mem id hm)
      · exact Or.inr hm
    cases hl : mpLookup mp id with
    | none =>
      simp only [rebuildKept, hid, if_false, hl] at h
      rcases ih acc (some id) k h with hm | hm
      · exact Or.inl (List.mem_cons_of_mem id hm)
      · exact Or.inr hm
    | some orig =>
      simp only [rebuildKept, hid, if_false, hl] at h
      rcases ih _ (some id) k h with hm | hm
      · exact Or.inl (List.mem_cons_of_mem id hm)
      · by_cases hk : k = id
        · exact Or.inl (hk ▸ List.mem_cons_self id rest)
        · rw [mpLookup_insertOrReplace_ne _ _ _ _ hk] at hm
          exact Or.inr hm

/-- The rebuild loop only ever writes nodes with at most one child, so it
preserves that bound on every entry. -/
lemma rebuildKept_children_le (mp : ChatMapping) :
    ∀ (kept : List String) (acc : ChatMapping) (prev : Option String),
      (∀ k n, mpLookup acc k = some n → n.children.length ≤ 1) →
      ∀ k n, mpLookup (rebuildKept mp kept acc prev) k = some n → n.children.length ≤ 1 := by
  intro kept
  induction kept with
  | nil => intro acc prev hacc k n h; exact hacc k n h
  | cons id rest ih =>
    intro acc prev hacc k n h
    by_cases hid : id = ""
    · simp only [rebuildKept, hid, if_true] at h
      exact ih acc (some "") hacc k n h
    cases hl : mpLookup mp id with
    | none =>
      simp only [rebuildKept, hid, if_false, hl] at h
      exact ih acc (some id) hacc k n h
    | some orig =>
      simp only [rebuildKept, hid, if_false, hl] at h
      refine ih _ (some id) ?_ k n h
      intro k2 n2 h2
      rcases mpLookup_insertOrReplace_cases acc id _ k2 n2 h2 with ⟨_, rfl⟩ | hold
      · cases hh : rest.head? with
        | none => simp [hh]
        | some nxt =>
          by_cases hn : nxt = "" <;> simp [hh, hn]
      · exact hacc k2 n2 hold

/-- The rebuild loop links the kept ids into a chain: the first kept id
gets the initial `prev` as parent, each later kept id gets the previous
kept id, and each kept id's children list is the next kept id (empty at
the end).  Each rebuilt entry is otherwise the original node. -/
lemma rebuildKept_chain (mp : ChatMapping) :
    ∀ (kept : List String) (acc : ChatMapping) (prev : Option String),
      kept.Nodup →
      (∀ id ∈ kept, id ≠ "" ∧ (mpLookup mp id).isSome = true) →
      (∀ _h0 : 0 < kept.length,
        ∃ orig, mpLookup mp kept[0] = some orig ∧
          mpLookup (rebuildKept mp kept acc prev) kept[0] =
            some { orig with parent := prev,
                             children := if h2 : 1 < kept.length then [kept[1]] else [] }) ∧
      (∀ i (_hi : i + 1 < kept.length),
        ∃ orig, mpLookup mp kept[i + 1] = some orig ∧
          mpLookup (rebuildKept mp kept acc prev) kept[i + 1] =
            some { orig with parent := some kept[i],
                             children := if h2 : i + 2 < kept.length then [kept[i + 2]] else [] }) := by
  intro kept
  induction kept with
  | nil =>
    intro acc prev _ _
    constructor
    · intro h0
      exact absurd h0 (by simp)
    · intro i hi
      exact absurd hi (by simp)
  | cons id rest ih =>
    intro acc prev hnodup hprops
    have hpid := hprops id (List.mem_cons_self id rest)
    obtain ⟨orig, hlook⟩ := Option.isSome_iff_exists.mp hpid.2
    have hid : ¬ id = "" := hpid.1
    have hidrest : id ∉ rest := (List.nodup_cons.mp hnodup).1
    have hrestnodup : rest.Nodup := (List.nodup_cons.mp hnodup).2
    have hrestprops : ∀ x ∈ rest, x ≠ "" ∧ (mpLookup mp x).isSome = true :=
      fun x hx => hprops x (List.mem_cons_of_mem id hx)
    have hunfold : rebuildKept mp (id :: rest) acc prev =
        rebuildKept mp rest
          (insertOrReplace acc id
            { orig with parent := prev,
                        children := match rest.head? with
                                    | some nxt => if nxt = "" then [] else [nxt]
                                    | none => [] })
          (some id) := by
      simp only [rebuildKept, hid, if_false, hlook]
    have hih := ih (insertOrReplace acc id
        { orig with parent := prev,
                    children := match rest.head? with
                                | some nxt => if nxt = "" then [] else [nxt]
                                | none => [] })
      (some id) hrestnodup hrestprops
    constructor
    · intro _h0
      refine ⟨orig, by simpa using hlook, ?_⟩
      rw [hunfold, List.getElem_cons_zero,
        rebuildKept_lookup_not_mem mp rest _ (some id) id hidrest,
        mpLookup_insertOrReplace_self]
      cases rest with
      | nil => simp
      | cons nxt rest2 =>
        have hnxt : nxt ≠ "" := (hrestprops nxt (List.mem_cons_self nxt rest2)).1
        simp only [List.head?_cons, hnxt, if_false]
        rw [dif_pos (by simp)]
        simp
    · intro i hi
      cases i with
      | zero =>
        have h0 : 0 < rest.length := by simpa using hi
        obtain ⟨orig2, hlook2, hmain⟩ := hih.1 h0
        refine ⟨orig2, by simpa using hlook2, ?_⟩
        rw [hunfold, List.getElem_cons_succ, hmain, List.getElem_cons_zero]
        by_cases hb : 1 < rest.length
        · rw [dif_pos hb, dif_pos (show 2 < (id :: rest).length by
            simp only [List.length_cons]; omega), List.getElem_cons_succ]
        · rw [dif_neg hb, dif_neg (show ¬ 2 < (id :: rest).length by
            simp only [List.length_cons]; omega)]
      | succ j =>
        have hj : j + 1 < rest.length := by simpa using hi
        obtain ⟨orig2, hlook2, hmain⟩ := hih.2 j hj
        refine ⟨orig2, by simpa using hlook2, ?_⟩
        rw [hunfold, List.getElem_cons_succ, hmain, List.getElem_cons_succ]
        by_cases hb : j + 2 < rest.length
        · rw [dif_pos hb, dif_pos (show j + 1 + 2 < (id :: rest).length by
            simp only [List.length_cons]; omega), List.getElem_cons_succ]
        · rw [dif_neg hb, dif_neg (show ¬ j + 1 + 2 < (id :: rest).length by
            simp only [List.length_cons]; omega)]

/-- The keys of a mapping. -/
def mpKeys (mp : ChatMapping) : List String := mp.map Prod.fst

/-- A successful lookup means the key occurs in the mapping. -/
lemma mpLookup_mem_keys (mp : ChatMapping) (c : String) (v : ChatNode)
    (h : mpLookup mp c = some v) : c ∈ mpKeys mp := by
  induction mp with
  | nil => exact Option.noConfusion h
  | cons kv rest ih =>
    obtain ⟨k0, v0⟩ := kv
    by_cases hk : k0 = c
    · subst hk
      exact List.mem_cons_self k0 _
    · simp only [mpLookup, hk, if_false] at h
      exact List.mem_cons_of_mem _ (ih h)

/-- Number of distinct mapping keys the walk has not visited yet: the
decreasing measure behind the visited-set cycle guard. -/
def unseenCount (mp : ChatMapping) (visited : List String) : Nat :=
  ((mpKeys mp).dedup.filter (fun k => decide (k ∉ visited))).length

/-- Filtering with a stronger predicate yields at most as many elements. -/
lemma filter_imp_length_le (l : List String) (p q : String → Bool)
    (h : ∀ x, p x = true → q x = true) :
    (l.filter p).length ≤ (l.filter q).length := by
  induction l with
  | nil => simp
  | cons a t ih =>
    by_cases hp : p a = true
    · rw [List.filter_cons, if_pos hp, List.filter_cons, if_pos (h a hp)]
      simpa using ih
    · rw [List.filter_cons, if_neg hp, List.filter_cons]
      by_cases hq : q a = true
      · rw [if_pos hq]
        simp only [List.length_cons]
        omega
      · rw [if_neg hq]
        exact ih

/-- Marking a present, previously unseen element as visited strictly
shrinks the unseen filter. -/
lemma filter_visited_lt (l : List String) (c : String) (visited : List String)
    (hc : c ∈ l) (hnv : c ∉ visited) :
    (l.filter (fun k => decide (k ∉ c :: visited))).length <
      (l.filter (fun k => decide (k ∉ visited))).length := by
  induction l with
  | nil => cases hc
  | cons a t ih =>
    have hmono : ∀ x, (fun k => decide (k ∉ c :: visited)) x = true →
        (fun k => decide (k ∉ visited)) x = true := by
      intro x hx
      simp only [decide_eq_true_eq, List.mem_cons] at hx ⊢
      exact fun hm => hx (Or.inr hm)
    by_cases hac : a = c
    · subst hac
      rw [List.filter_cons, if_neg (by simp), List.filter_cons, if_pos (by simpa using hnv)]
      have hle := filter_imp_length_le t _ _ hmono
      simp only [List.length_cons]
      omega
    · have hsame : (decide (a ∉ c :: visited)) = (decide (a ∉ visited)) := by
        apply decide_eq_decide.mpr
        simp only [List.mem_cons]
        constructor
        · intro hx hm
          exact hx (Or.inr hm)
        · intro hx hm
          rcases hm with hm | hm
          · exact hac hm
          · exact hx hm
      have hc2 : c ∈ t := by
        rcases List.mem_cons.mp hc with hm | hm
        · exact absurd hm.symm hac
        · exact hm
      rw [List.filter_cons, List.filter_cons, hsame]
      by_cases hq : (decide (a ∉ visited)) = true
      · rw [if_pos hq, if_pos hq]
        simp only [List.length_cons]
        exact Nat.succ_lt_succ (ih hc2)
      · rw [if_neg hq, if_neg hq]
        exact ih hc2

/-- Visiting a fresh key strictly decreases the measure. -/
lemma unseenCount_lt (mp : ChatMapping) (c : String) (visited : List String)
    (hc : c ∈ mpKeys mp) (hnv : c ∉ visited) :
    unseenCount mp (c :: visited) < unseenCount mp visited :=
  filter_visited_lt (mpKeys mp).dedup c visited (List.mem_dedup.mpr hc) hnv

/-- The measure never exceeds the mapping size. -/
lemma unseenCount_le (mp : ChatMapping) (visited : List String) :
    unseenCount mp visited ≤ mp.length := by
  unfold unseenCount
  calc ((mpKeys mp).dedup.filter _).length
      ≤ (mpKeys mp).dedup.length := List.length_filter_le _ _
    _ ≤ (mpKeys mp).length := (List.dedup_sublist _).length_le
    _ = mp.length := List.length_map _ _

/-- With more fuel than unseen keys, the walk always exits through one of
its own guards — the fuel never runs out.  Every continuing step visits a
fresh key, so the measure strictly decreases. -/
lemma buildPathAux_no_exhaust (mp : ChatMapping) :
    ∀ (fuel : Nat) (cursor : Option String) (visited path : List String),
      unseenCount mp visited < fuel →
      (buildPathAux mp fuel cursor visited path).2 = false := by
  intro fuel
  induction fuel with
  | zero =>
    intro _ visited _ h
    exact absurd h (by omega)
  | succ fuel ih =>
    intro cursor visited path h
    cases cursor with
    | none => simp [buildPathAux]
    | some c =>
      by_cases hc : c = ""
      · simp [buildPathAux, hc]
      cases hl : mpLookup mp c with
      | none => simp [buildPathAux, hc, hl]
      | some node =>
        by_cases hv : c ∈ visited
        · simp [buildPathAux, hc, hl, hv]
        · have hck : c ∈ mpKeys mp := mpLookup_mem_keys mp c node hl
          have hdec := unseenCount_lt mp c visited hck hv
          have hlt : unseenCount mp (c :: visited) < fuel := by omega
          simpa [buildPathAux, hc, hl, hv] using
            ih node.parent (c :: visited) (path ++ [c]) hlt

/-- C4 (amended): the tree trimmer terminates on every input — in
particular on parent-link cycles reachable from `current_node` — because
the visited-set guard bounds the walk by the number of mapping keys, so
the walk always exits via its own break conditions within the
`mp.length + 1` fuel `trimMapping` grants it.  But on a cyclic input it
does not return null: it trims the partial path collected before the
repeat was detected (null arises only from a missing mapping /
current node or an empty kept set). -/
theorem claim4_amended_cycle_terminates :
    (∀ (mp : ChatMapping) (current : String),
      (buildPathAux mp (mp.length + 1) (some current) [] []).2 = false) ∧
    trimMapping cycData 10 =
      some { mapping :=
               [ ("b", { parent := some "b", children := ["a"],
                         message := some { author := some { role := some "user" } } }),
                 ("a", { parent := some "b", children := [],
                         message := some { author := some { role := some "assistant" } } }) ],
             current_node := "a", root := "b", keptCount := 2, totalCount := 2,
             visibleKept := 2, visibleTotal := 2 } := by
  constructor
  · intro mp current
    exact buildPathAux_no_exhaust mp (mp.length + 1) (some current) [] []
      (Nat.lt_succ_of_le (unseenCount_le mp []))
  · decide

/-- When `current_node` passes the guards, the root anchor exists: the
path is non-empty and its first id is truthy and resolvable. -/
lemma rootInfoOf_isSome (mp : ChatMapping) (current : String)
    (h1 : current ≠ "") (h2 : (mpLookup mp current).isSome = true) :
    ∃ rid rnode, rootInfoOf mp current = some (rid, rnode) := by
  have hne := pathOf_ne_nil mp current h1 h2
  cases hp : pathOf mp current with
  | nil => exact absurd hp hne
  | cons rid rest =>
    have hmem : rid ∈ pathOf mp current := by
      rw [hp]
      exact List.mem_cons_self rid rest
    obtain ⟨hrne, hrsome⟩ := pathOf_mem_props mp current rid hmem
    obtain ⟨rnode, hrnode⟩ := Option.isSome_iff_exists.mp hrsome
    refine ⟨rid, rnode, ?_⟩
    unfold rootInfoOf
    rw [hp]
    simp [hrne, hrnode]

/-- Inversion of a successful trim: the payload had a mapping and a truthy
resolvable `current_node`, the kept set is non-empty, and the result
record is assembled from the rebuilt mapping, the kept set's length and
last element, and the anchor root. -/
lemma trimMapping_inv (data : ConversationData) (limit : Int) (r : TrimResult)
    (h : trimMapping data limit = some r) :
    ∃ mp current, data.mapping = some mp ∧ data.current_node = some current ∧
      current ≠ "" ∧ (mpLookup mp current).isSome = true ∧
      keptOf mp current limit ≠ [] ∧
      r.mapping = newMappingOf mp current limit ∧
      r.keptCount = (keptOf mp current limit).length ∧
      (keptOf mp current limit).getLast? = some r.current_node ∧
      (rootInfoOf mp current).map Prod.fst = some r.root := by
  unfold trimMapping at h
  cases dm : data.mapping with
  | none =>
    rw [dm] at h
    exact Option.noConfusion h
  | some mp =>
    cases dc : data.current_node with
    | none =>
      rw [dm, dc] at h
      exact Option.noConfusion h
    | some current =>
      rw [dm, dc] at h
      dsimp only at h
      by_cases hcur : current = ""
      · rw [if_pos hcur] at h
        exact Option.noConfusion h
      rw [if_neg hcur] at h
      cases hlk : mpLookup mp current with
      | none =>
        rw [hlk] at h
        exact Option.noConfusion h
      | some n0 =>
        rw [hlk] at h
        dsimp only at h
        by_cases hke : (keptOf mp current limit).isEmpty = true
        · rw [if_pos hke] at h
          exact Option.noConfusion h
        rw [if_neg hke] at h
        obtain ⟨rid, rnode, hroot⟩ :=
          rootInfoOf_isSome mp current hcur (by rw [hlk]; rfl)
        rw [hroot] at h
        dsimp only at h
        cases hlast : (keptOf mp current limit).getLast? with
        | none =>
          rw [hlast] at h
          exact Option.noConfusion h
        | some nc =>
          rw [hlast] at h
          dsimp only at h
          by_cases hnr : rid = "" ∨ nc = ""
          · rw [if_pos hnr] at h
            exact Option.noConfusion h
          rw [if_neg hnr] at h
          have hrec := Option.some.inj h
          refine ⟨mp, current, rfl, rfl, hcur, by rw [hlk]; rfl, ?_, ?_, ?_, ?_, ?_⟩
          · intro hnil
            rw [hnil] at hke
            exact hke rfl
          · rw [← hrec]
          · rw [← hrec]
          · rw [← hrec]
            exact hlast
          · rw [← hrec, hroot]
            rfl

/-- C3: hidden-role nodes (system / tool / thinking) never advance the
turn counter that locates the cut point — the cut loop passes over every
id that is not a visible message without touching its accumulators — and
the kept set of every successful trim consists exclusively of visible
ids, so a hidden-role node inside the retained range never survives into
the kept set. -/
theorem claim3_hidden_roles :
    (∀ (mp : ChatMapping) (limit : Int) (i : Nat) (id : String)
        (rest : List (Nat × String)) (tc : Int) (lr : Option String),
      isVisibleId mp id = false →
      cutLoop mp limit ((i, id) :: rest) tc lr = cutLoop mp limit rest tc lr) ∧
    (∀ (mp : ChatMapping) (path : List String) (limit : Int) (id : String),
      id ∈ keptIds mp path limit → isVisibleId mp id = true) ∧
    (∀ (data : ConversationData) (limit : Int) (r : TrimResult),
      trimMapping data limit = some r →
      ∃ mp current, data.mapping = some mp ∧ data.current_node = some current ∧
        r.keptCount = (keptOf mp current limit).length ∧
        ∀ id ∈ keptOf mp current limit, isVisibleId mp id = true) := by
  refine ⟨?_, ?_, ?_⟩
  · intro mp limit i id rest tc lr hvis
    by_cases hid : id = ""
    · simp [cutLoop, hid]
    · unfold isVisibleId at hvis
      cases hl : mpLookup mp id with
      | none => simp [cutLoop, hid, hl]
      | some n =>
        rw [hl] at hvis
        dsimp only at hvis
        simp [cutLoop, hid, hl, hvis]
  · intro mp path limit id hid
    unfold keptIds at hid
    exact (List.mem_filter.mp hid).2
  · intro data limit r h
    obtain ⟨mp, current, dm, dc, _, _, _, _, hcount, _⟩ := trimMapping_inv data limit r h
    exact ⟨mp, current, dm, dc, hcount, keptOf_visible mp current limit⟩

/-- C3 witness: on the concrete path with a hidden system node inside the
retained range, the cut loop skips the system id, the user id is visible
and kept, and the successful trim keeps exactly the two visible ids. -/
theorem claim3_hidden_roles_witness :
    cutLoop c3mp 5 [(2, "s1")] 0 none = cutLoop c3mp 5 [] 0 none ∧
    isVisibleId c3mp "u1" = true ∧
    (∃ mp current, c3data.mapping = some mp ∧ c3data.current_node = some current ∧
      (2 : Nat) = (keptOf mp current 5).length ∧
      ∀ id ∈ keptOf mp current 5, isVisibleId mp id = true) ∧
    keptOf c3mp "a1" 5 = ["u1", "a1"] ∧ isVisibleId c3mp "s1" = false := by
  refine ⟨?_, ?_, ?_, by decide, by decide⟩
  · exact claim3_hidden_roles.1 c3mp 5 2 "s1" [] 0 none (by decide)
  · exact claim3_hidden_roles.2.1 c3mp (pathOf c3mp "a1") 5 "u1" (by decide)
  · have h := claim3_hidden_roles.2.2 c3data 5
      { mapping :=
          [ ("r0", { parent := none, children := ["u1"], message := none }),
            ("u1", { parent := some "r0", children := ["a1"],
                     message := some { author := some { role := some "user" } } }),
            ("a1", { parent := some "u1", children := [],
                     message := some { author := some { role := some "assistant" } } }) ],
        current_node := "a1", root := "r0", keptCount := 2, totalCount := 4,
        visibleKept := 2, visibleTotal := 2 } (by decide)
    simpa using h

/-- C10: every non-null result of `trimMapping` is a single linear chain
over the kept ids: (i) every entry of the returned mapping has at most
one child; (ii) the first kept node's parent is the preserved anchor
root (`r.root`) and every later kept node's parent is the previous kept
node, with each kept node's children list pointing at the next kept node
(empty at the end); (iii) `current_node` is the last kept node; and
(iv) the returned mapping contains no id beyond the anchor and the kept
ids — every branch off the active path, and every hidden node, is absent
from the output even when the conversation is under the turn limit. -/
theorem claim10_linear_chain (data : ConversationData) (limit : Int) (r : TrimResult)
    (h : trimMapping data limit = some r) :
    ∃ mp current, data.mapping = some mp ∧ data.current_node = some current ∧
      (∀ k n, mpLookup r.mapping k = some n → n.children.length ≤ 1) ∧
      (∀ _h0 : 0 < (keptOf mp current limit).length,
        ∃ orig, mpLookup mp (keptOf mp current limit)[0] = some orig ∧
          mpLookup r.mapping (keptOf mp current limit)[0] =
            some { orig with parent := some r.root,
                             children := if h2 : 1 < (keptOf mp current limit).length
                                         then [(keptOf mp current limit)[1]] else [] }) ∧
      (∀ i (_hi : i + 1 < (keptOf mp current limit).length),
        ∃ orig, mpLookup mp (keptOf mp current limit)[i + 1] = some orig ∧
          mpLookup r.mapping (keptOf mp current limit)[i + 1] =
            some { orig with parent := some (keptOf mp current limit)[i],
                             children := if h2 : i + 2 < (keptOf mp current limit).length
                                         then [(keptOf mp current limit)[i + 2]] else [] }) ∧
      (keptOf mp current limit).getLast? = some r.current_node ∧
      (∀ k, (mpLookup r.mapping k).isSome = true →
        k = r.root ∨ k ∈ keptOf mp current limit) := by
  obtain ⟨mp, current, dm, dc, hcur, hsome, _hkne, hmap, _hcount, hlast, hrootfst⟩ :=
    trimMapping_inv data limit r h
  obtain ⟨rid, rnode, hroot⟩ := rootInfoOf_isSome mp current hcur hsome
  have hrid : rid = r.root := by
    rw [hroot] at hrootfst
    exact Option.some.inj hrootfst
  subst hrid
  have hmap2 : r.mapping =
      rebuildKept mp (keptOf mp current limit) (acc0Of mp current limit) (some r.root) := by
    rw [hmap]
    unfold newMappingOf
    rw [hroot]
    rfl
  have hacc0 : acc0Of mp current limit =
      [(r.root, { rnode with parent := none,
                             children := keptHeadChildrenOf (keptOf mp current limit) })] := by
    unfold acc0Of
    rw [hroot]
  have hacc0_children : ∀ k n, mpLookup (acc0Of mp current limit) k = some n →
      n.children.length ≤ 1 := by
    intro k n hk
    rw [hacc0] at hk
    simp only [mpLookup] at hk
    by_cases hkr : r.root = k
    · rw [if_pos hkr] at hk
      have hn := Option.some.inj hk
      rw [← hn]
      unfold keptHeadChildrenOf
      cases hh : (keptOf mp current limit).head? with
      | none => simp
      | some k0 =>
        by_cases hk0 : k0 = "" <;> simp [hk0]
    · rw [if_neg hkr] at hk
      exact Option.noConfusion hk
  have hchain := rebuildKept_chain mp (keptOf mp current limit)
    (acc0Of mp current limit) (some r.root)
    (keptOf_nodup mp current limit) (keptOf_props mp current limit)
  refine ⟨mp, current, dm, dc, ?_, ?_, ?_, hlast, ?_⟩
  · intro k n hk
    rw [hmap2] at hk
    exact rebuildKept_children_le mp (keptOf mp current limit) _ (some r.root)
      hacc0_children k n hk
  · intro h0
    obtain ⟨orig, ho1, ho2⟩ := hchain.1 h0
    exact ⟨orig, ho1, by rw [hmap2]; exact ho2⟩
  · intro i hi
    obtain ⟨orig, ho1, ho2⟩ := hchain.2 i hi
    exact ⟨orig, ho1, by rw [hmap2]; exact ho2⟩
  · intro k hk
    rw [hmap2] at hk
    rcases rebuildKept_domain mp (keptOf mp current limit) _ (some r.root) k hk with hm | hm
    · exact Or.inr hm
    · rw [hacc0] at hm
      simp only [mpLookup] at hm
      by_cases hkr : r.root = k
      · exact Or.inl hkr.symm
      · rw [if_neg hkr] at hm
        exact Bool.noConfusion hm

/-- The trim result of the turn-collapsing payload, used to instantiate
the linear-chain theorem at a concrete input. -/
def c10r : TrimResult :=
  { mapping :=
      [ ("n0", { parent := none, children := ["n3"],
                 message := some { author := some { role := some "user" } } }),
        ("n3", { parent := some "n0", children := ["n4"],
                 message := some { author := some { role := some "user" } } }),
        ("n4", { parent := some "n3", children := [],
                 message := some { author := some { role := some "assistant" } } }) ],
    current_node := "n4", root := "n0", keptCount := 2, totalCount := 5,
    visibleKept := 2, visibleTotal := 4 }

/-- C10 witness: the linear-chain theorem applied to the concrete
turn-collapsing payload. -/
theorem claim10_linear_chain_witness :
    ∃ mp current, c2data.mapping = some mp ∧ c2data.current_node = some current ∧
      (∀ k n, mpLookup c10r.mapping k = some n → n.children.length ≤ 1) ∧
      (∀ _h0 : 0 < (keptOf mp current 2).length,
        ∃ orig, mpLookup mp (keptOf mp current 2)[0] = some orig ∧
          mpLookup c10r.mapping (keptOf mp current 2)[0] =
            some { orig with parent := some c10r.root,
                             children := if h2 : 1 < (keptOf mp current 2).length
                                         then [(keptOf mp current 2)[1]] else [] }) ∧
      (∀ i (_hi : i + 1 < (keptOf mp current 2).length),
        ∃ orig, mpLookup mp (keptOf mp current 2)[i + 1] = some orig ∧
          mpLookup c10r.mapping (keptOf mp current 2)[i + 1] =
            some { orig with parent := some (keptOf mp current 2)[i],
                             children := if h2 : i + 2 < (keptOf mp current 2).length
                                         then [(keptOf mp current 2)[i + 2]] else [] }) ∧
      (keptOf mp current 2).getLast? = some c10r.current_node ∧
      (∀ k, (mpLookup c10r.mapping k).isSome = true →
        k = c10r.root ∨ k ∈ keptOf mp current 2) :=
  claim10_linear_chain c2data 2 c10r (by decide)

/-- C7 (amended): the observer/phase invariant holds in the initial state
and is preserved by `boot`, `shutdown` and `scheduleTrim` on every state,
and by `evaluateTrim` and `maybeTransitionToSteady` on Observing states.
It is NOT preserved by `evaluateTrim` on an Idle state (see the
counterexample): every return path of `evaluateTrim` forces the phase to
`OBSERVING` while leaving the observer untouched. -/
theorem claim7_amended_invariant (s : TrimmerState) (opts : EvaluateTrimOptions)
    (env : TrimEnv) (firstTrim : Bool) (now : Nat) (rootLookup : Option String) :
    trimInvariant createInitialState ∧
    (trimInvariant s → trimInvariant (boot s rootLookup now)) ∧
    trimInvariant (shutdown s) ∧
    (trimInvariant s → trimInvariant (scheduleTrim s)) ∧
    (s.current = TrimPhase.OBSERVING → trimInvariant s →
      trimInvariant (evaluateTrim s opts env).state) ∧
    (s.current = TrimPhase.OBSERVING → trimInvariant s →
      trimInvariant (maybeTransitionToSteady s firstTrim now rootLookup)) := by
  refine ⟨?_, ?_, ?_, ?_, ?_, ?_⟩
  · simp [trimInvariant, createInitialState]
  · intro hinv
    unfold boot
    split_ifs with h1
    · exact hinv
    · cases rootLookup with
      | none => exact hinv
      | some root => simp [trimInvariant]
  · simp [trimInvariant, shutdown, createInitialState]
  · intro hinv
    unfold scheduleTrim
    split_ifs with h1
    · exact hinv
    · simpa [trimInvariant] using hinv
  · intro hobs hinv
    have hobs2 : s.observer ≠ none := hinv.mpr hobs
    unfold evaluateTrim trimInvariant
    split_ifs <;> simp [hobs2]
  · intro hobs hinv
    have hobs2 : s.observer ≠ none := hinv.mpr hobs
    unfold maybeTransitionToSteady
    split_ifs with h1
    · exact hinv
    · cases s.conversationRoot.orElse (fun _ => rootLookup) with
      | none => simpa [trimInvariant, hobs] using hobs2
      | some root => simp [trimInvariant, hobs]

/-- C7 witness: a booted (Observing) state satisfies the invariant, and
both an evaluation and a mode transition on it preserve the invariant. -/
theorem claim7_amended_invariant_witness :
    trimInvariant (boot createInitialState (some "main") 5) ∧
    trimInvariant (evaluateTrim (boot createInitialState (some "main") 5)
        { force := false, settings := none }
        { streaming := false, candidatesFast := [], candidatesAccurate := [], now := 9 }).state ∧
    trimInvariant (maybeTransitionToSteady (boot createInitialState (some "main") 5)
        true 2000 none) := by
  have hinv : trimInvariant (boot createInitialState (some "main") 5) := by
    simp [trimInvariant, boot, createInitialState]
  refine ⟨hinv, ?_, ?_⟩
  · exact (claim7_amended_invariant (boot createInitialState (some "main") 5)
      { force := false, settings := none }
      { streaming := false, candidatesFast := [], candidatesAccurate := [], now := 9 }
      true 2000 none).2.2.2.2.1 (by simp [boot, createInitialState]) hinv
  · exact (claim7_amended_invariant (boot createInitialState (some "main") 5)
      { force := false, settings := none }
      { streaming := false, candidatesFast := [], candidatesAccurate := [], now := 9 }
      true 2000 none).2.2.2.2.2 (by simp [boot, createInitialState]) hinv

end LightSession
